import Mathlib

/-!
Verification of the iCal server in `main.go`.

The embedding models the registered handler chain (`calendarHandler` and the
functions it calls) as pure functions over an explicit filesystem state.
Strings are Lean `String`s; the Go standard-library path helpers the server
relies on (`path/filepath.Clean`, `filepath.Join`, `filepath.Dir`,
`strings.Split`, `strings.Trim`, `strings.HasSuffix`, and the `..`-element
rejection performed by `net/http.ServeFile`) are embedded at the level of
their character-list semantics.  I/O failures (directory creation or file
write errors) are not modelled: the filesystem operations always succeed,
so the 500 branches of the handlers do not appear.
-/

/-- `dataDir` in `main.go`: the directory where all calendar files are stored. -/
def dataDir : String := "calendars"

/-- Element processing loop of Go `path/filepath.Clean` (Unix separator).
`stack` holds the output path elements accumulated so far, most recent first.
Empty and `"."` elements are dropped; a `".."` element removes the previous
element, is discarded at the root of a rooted path, and is kept at the start
of a relative path. -/
def cleanAux (rooted : Bool) : List (List Char) → List (List Char) → List (List Char)
  | stack, [] => stack.reverse
  | stack, s :: rest =>
    if s = [] ∨ s = ['.'] then cleanAux rooted stack rest
    else if s = ['.', '.'] then
      match stack with
      | [] => if rooted then cleanAux rooted [] rest else cleanAux rooted [['.', '.']] rest
      | t :: stack' =>
        if t = ['.', '.'] then cleanAux rooted (['.', '.'] :: t :: stack') rest
        else cleanAux rooted stack' rest
    else cleanAux rooted (s :: stack) rest

/-- Join path elements with the separator, as `strings.Join(elems, "/")` does. -/
def joinSegs : List (List Char) → List Char
  | [] => []
  | [s] => s
  | s :: s' :: rest => s ++ '/' :: joinSegs (s' :: rest)

/-- Go `path/filepath.Clean` on a Unix path, at the character-list level:
lexically shortest equivalent path, with `.`/`..` elements and repeated
separators eliminated. -/
def cleanList (l : List Char) : List Char :=
  if l = [] then ['.']
  else if l.head? = some '/' then
    '/' :: joinSegs (cleanAux true [] (l.splitOn '/'))
  else
    let segs := cleanAux false [] (l.splitOn '/')
    if segs = [] then ['.'] else joinSegs segs

/-- Go `path/filepath.Clean`. -/
def filepathClean (p : String) : String := String.mk (cleanList p.data)

/-- Go `path/filepath.Join` restricted to the two arguments used in `main.go`:
the elements are joined with a separator starting from the first non-empty
one, and the result is cleaned. -/
def filepathJoin (a b : String) : String :=
  if a ≠ "" then filepathClean (a ++ "/" ++ b)
  else if b ≠ "" then filepathClean b
  else ""

/-- Go `path/filepath.Dir`: everything up to the final separator, cleaned. -/
def filepathDir (p : String) : String :=
  filepathClean (String.mk ((p.data.reverse.dropWhile (fun c => ¬ c = '/')).reverse))

/-- Go `strings.Trim(s, "/")` on the character list of a path. -/
def trimSlashes (l : List Char) : List Char :=
  ((l.dropWhile (fun c => c = '/')).reverse.dropWhile (fun c => c = '/')).reverse

/-- Go `strings.HasSuffix`. -/
def stringsHasSuffix (s suf : String) : Bool :=
  suf.data.isSuffixOf s.data

/-- The slash-rune test of `net/http`: `/` and `\` both count as separators. -/
def isSlashRune (c : Char) : Bool := c = '/' || c = '\\'

/-- Go `strings.FieldsFunc`: maximal runs of characters not satisfying `p`;
empty fields are dropped.  `cur` is the current partial field, reversed. -/
def fieldsAux (p : Char → Bool) (cur : List Char) : List Char → List (List Char)
  | [] => if cur = [] then [] else [cur.reverse]
  | c :: rest =>
    if p c then
      (if cur = [] then fieldsAux p [] rest else cur.reverse :: fieldsAux p [] rest)
    else fieldsAux p (c :: cur) rest

/-- `containsDotDot` from `net/http`, used by `http.ServeFile`: the request
path is rejected when any slash-separated field equals `".."`. -/
def containsDotDot (s : String) : Bool :=
  (fieldsAux isSlashRune [] s.data).contains ['.', '.']

/-- HTTP request method.  `other` covers every method besides GET and PUT. -/
inductive Method where
  | get
  | put
  | other (name : String)
deriving DecidableEq, Repr

/-- An inbound HTTP request as the handlers observe it: method, URL path,
the Basic-Auth credentials (`none` when absent or malformed), and the body. -/
structure Request where
  method : Method
  path : String
  basicAuth : Option (String × String)
  body : String
deriving DecidableEq, Repr

/-- The parts of an HTTP response the handlers produce. -/
structure Response where
  status : Nat
  contentType : Option String
  wwwAuthenticate : Option String
  body : String
deriving DecidableEq, Repr

/-- Filesystem state: files as an association list from full path to content,
and the set of directories created so far. -/
structure FS where
  files : List (String × String)
  dirs : List String
deriving DecidableEq, Repr

/-- Association-list lookup (Go map read `users[username]`, `os.Stat`). -/
def lookupStr (k : String) : List (String × String) → Option String
  | [] => none
  | (k', v) :: rest => if k' = k then some v else lookupStr k rest

/-- `os.WriteFile`: create the file or fully overwrite its content. -/
def setFile (k v : String) (files : List (String × String)) : List (String × String) :=
  (k, v) :: files.filter (fun e => ¬ e.1 = k)

/-- `os.MkdirAll`: record the directory (no effect when already present). -/
def insertDir (d : String) (dirs : List String) : List String :=
  if d ∈ dirs then dirs else d :: dirs

/-- Go `http.Error`: plain-text content type and the message plus newline. -/
def httpError (msg : String) (code : Nat) : Response :=
  { status := code
    contentType := some "text/plain; charset=utf-8"
    wwwAuthenticate := none
    body := msg ++ "\n" }

/-- Go `http.NotFound`. -/
def httpNotFound : Response := httpError "404 page not found" 404

/-- The uniform failure response of `authMiddleware`: the challenge header is
set and then `http.Error(w, "Unauthorized", 401)` is written. -/
def unauthorizedResponse : Response :=
  { httpError "Unauthorized" 401 with wwwAuthenticate := some "Basic realm=\"Restricted\"" }

/-- `handleGetCalendar` from `main.go`: public read of a calendar file.
The final serving step embeds `http.ServeFile`, which rejects request paths
containing a `..` element before writing the file bytes. -/
def handleGetCalendar (fs : FS) (r : Request) : Response × FS :=
  let path := r.path
  if ¬ stringsHasSuffix path ".ics" then (httpNotFound, fs)
  else
    let filePath := filepathJoin dataDir (filepathClean path)
    match lookupStr filePath fs.files with
    | none => (httpNotFound, fs)
    | some content =>
      if containsDotDot path then (httpError "invalid URL path" 400, fs)
      else
        ({ status := 200
           contentType := some "text/calendar; charset=utf-8"
           wwwAuthenticate := none
           body := content }, fs)

/-- `handlePutCalendar` from `main.go`: authenticated create-or-overwrite of
a calendar file.  `authUser` is the identity the middleware verified. -/
def handlePutCalendar (authUser : String) (fs : FS) (r : Request) : Response × FS :=
  let path := r.path
  if ¬ stringsHasSuffix path ".ics" then
    (httpError "Invalid path. Must end with .ics" 400, fs)
  else
    let parts := (trimSlashes path.data).splitOn '/'
    if parts.length < 2 then
      (httpError "Invalid path format. Expected /\x7busername\x7d/\x7bcalendar\x7d.ics" 400, fs)
    else if ¬ authUser.data = parts.headI then
      (httpError "Forbidden. You can only edit your own calendars." 403, fs)
    else
      let filePath := filepathJoin dataDir (filepathClean path)
      let dir := filepathDir filePath
      ({ status := 204, contentType := none, wwwAuthenticate := none, body := "" },
       { files := setFile filePath r.body fs.files, dirs := insertDir dir fs.dirs })

/-- `authMiddleware` from `main.go`: Basic-Auth check against the credential
store; on success the verified username is passed to the wrapped handler. -/
def authMiddleware (users : List (String × String))
    (next : String → FS → Request → Response × FS)
    (fs : FS) (r : Request) : Response × FS :=
  match r.basicAuth with
  | none => (unauthorizedResponse, fs)
  | some (username, password) =>
    match lookupStr username users with
    | none => (unauthorizedResponse, fs)
    | some expectedPassword =>
      if ¬ expectedPassword = password then (unauthorizedResponse, fs)
      else next username fs r

/-- `calendarHandler` from `main.go`: the method router. -/
def calendarHandler (users : List (String × String)) (fs : FS) (r : Request) :
    Response × FS :=
  match r.method with
  | .get => handleGetCalendar fs r
  | .put => authMiddleware users handlePutCalendar fs r
  | .other _ => (httpError "Method Not Allowed" 405, fs)

/-- The storage location both handlers compute (`main.go` lines 156 and 197):
`filepath.Join(dataDir, filepath.Clean(path))`. -/
def resolvedPath (p : String) : String := filepathJoin dataDir (filepathClean p)

/-- Whether the credentials pass `authMiddleware` against `users`. -/
def authSucceeds (users : List (String × String)) : Option (String × String) → Bool
  | none => false
  | some (username, password) =>
    match lookupStr username users with
    | none => false
    | some expectedPassword => expectedPassword = password

/-- A path element that `filepath.Clean` passes through unchanged. -/
def normalSeg (s : List Char) : Prop := s ≠ [] ∧ s ≠ ['.'] ∧ s ≠ ['.', '.']

/-- `p` lies strictly inside `root`: it extends `root` past a separator and
none of its slash-separated elements is empty, `"."`, or `".."`, so the
string denotes a genuine descendant of `root` on the filesystem. -/
def strictDescendant (root p : String) : Prop :=
  (∃ rest, p.data = root.data ++ '/' :: rest) ∧
    ∀ s ∈ p.data.splitOn '/', normalSeg s

/-- The path elements `filepath.Clean` keeps when no `".."` element occurs:
the non-empty elements other than `"."`. -/
def keepSeg (s : List Char) : Bool := decide (¬ (s = [] ∨ s = ['.']))

/-- The URL path of the calendar resource `(U, N)`. -/
def userCalendarPath (U N : String) : String := "/" ++ U ++ "/" ++ N ++ ".ics"

/-- The storage location of the calendar resource `(U, N)`. -/
def ownedLocation (U N : String) : String := resolvedPath (userCalendarPath U N)

example : filepathClean "/a/../../etc/passwd" = "/etc/passwd" := by decide
example : filepathClean "a//b/./../c" = "a/c" := by decide
example : filepathClean "" = "." := by decide
example : filepathClean "/" = "/" := by decide
example : filepathClean "a/../../b" = "../b" := by decide
example : filepathJoin "calendars" "/etc/passwd" = "calendars/etc/passwd" := by decide
example : filepathDir "calendars/john/work.ics" = "calendars/john" := by decide
example : filepathDir "a" = "." := by decide
example : resolvedPath "/john/work.ics" = "calendars/john/work.ics" := by decide
example : resolvedPath "/a/../../x.ics" = "calendars/x.ics" := by decide
example : containsDotDot "/u/../v.ics" = true := by decide
example : containsDotDot "/u/v.ics" = false := by decide
example : trimSlashes "/john/work.ics".data = "john/work.ics".data := by decide
example : stringsHasSuffix "/a/b.ics" ".ics" = true := by decide

/-! ### Splitting on the path separator -/

theorem splitOn_slash_ne_nil (l : List Char) : l.splitOn '/' ≠ [] :=
  List.splitOnP_ne_nil _ l

theorem splitOn_cons_slash (l : List Char) : ('/' :: l).splitOn '/' = [] :: l.splitOn '/' := by
  simp [List.splitOn, List.splitOnP_cons]

theorem splitOn_cons_ne (c : Char) (l : List Char) (h : ¬ c = '/') :
    (c :: l).splitOn '/' = (l.splitOn '/').modifyHead (c :: ·) := by
  simp [List.splitOn, List.splitOnP_cons, h]

theorem splitOn_no_slash {l : List Char} (h : '/' ∉ l) : l.splitOn '/' = [l] := by
  apply List.splitOnP_eq_single
  intro x hx
  simp only [beq_iff_eq]
  exact fun hc => h (hc ▸ hx)

theorem splitOn_append_slash {a : List Char} (rest : List Char) (h : '/' ∉ a) :
    (a ++ '/' :: rest).splitOn '/' = a :: rest.splitOn '/' := by
  show (a ++ '/' :: rest).splitOnP (· == '/') = a :: rest.splitOnP (· == '/')
  refine List.splitOnP_first _ a ?_ '/' (by simp) rest
  intro x hx
  simp only [beq_iff_eq]
  exact fun hc => h (hc ▸ hx)

theorem mem_splitOn_no_slash : ∀ (l : List Char) (s : List Char), s ∈ l.splitOn '/' → '/' ∉ s := by
  intro l
  induction l with
  | nil =>
    intro s hs
    simp only [List.splitOn_nil, List.mem_singleton] at hs
    simp [hs]
  | cons c cs ih =>
    intro s hs
    by_cases hc : c = '/'
    · subst hc
      rw [splitOn_cons_slash] at hs
      rcases List.mem_cons.mp hs with rfl | hs'
      · simp
      · exact ih s hs'
    · rw [splitOn_cons_ne c cs hc] at hs
      cases hX : cs.splitOn '/' with
      | nil => exact absurd hX (splitOn_slash_ne_nil cs)
      | cons hd tl =>
        rw [hX] at hs
        simp only [List.modifyHead_cons] at hs
        rcases List.mem_cons.mp hs with rfl | hs'
        · intro hmem
          rcases List.mem_cons.mp hmem with h' | h'
          · exact hc h'.symm
          · exact ih hd (by rw [hX]; exact List.mem_cons_self hd tl) h'
        · exact ih s (by rw [hX]; exact List.mem_cons_of_mem _ hs')

theorem splitOn_joinSegs : ∀ L : List (List Char), L ≠ [] → (∀ s ∈ L, '/' ∉ s) →
    (joinSegs L).splitOn '/' = L := by
  intro L
  induction L with
  | nil => intro h _; exact absurd rfl h
  | cons s rest ih =>
    intro _ hs
    cases rest with
    | nil =>
      show s.splitOn '/' = [s]
      exact splitOn_no_slash (hs s (by simp))
    | cons s' rest' =>
      show (s ++ '/' :: joinSegs (s' :: rest')).splitOn '/' = s :: s' :: rest'
      rw [splitOn_append_slash _ (hs s (by simp))]
      rw [ih (by simp) (fun x hx => hs x (List.mem_cons_of_mem _ hx))]

theorem splitOn_append {m : List Char} (hm : '/' ∉ m) :
    ∀ l : List Char, ∃ I u, l.splitOn '/' = I ++ [u] ∧ (l ++ m).splitOn '/' = I ++ [u ++ m] := by
  intro l
  induction l with
  | nil =>
    refine ⟨[], [], by simp, ?_⟩
    simpa using splitOn_no_slash hm
  | cons c l' ih =>
    obtain ⟨I, u, h1, h2⟩ := ih
    by_cases hc : c = '/'
    · subst hc
      refine ⟨[] :: I, u, ?_, ?_⟩
      · rw [splitOn_cons_slash, h1]; rfl
      · rw [List.cons_append, splitOn_cons_slash, h2]; rfl
    · cases I with
      | nil =>
        simp only [List.nil_append] at h1 h2
        refine ⟨[], c :: u, ?_, ?_⟩
        · rw [splitOn_cons_ne c l' hc, h1]; simp
        · rw [List.cons_append, splitOn_cons_ne c _ hc, h2]; simp
      | cons i0 Is =>
        refine ⟨(c :: i0) :: Is, u, ?_, ?_⟩
        · rw [splitOn_cons_ne c l' hc, h1]; simp
        · rw [List.cons_append, splitOn_cons_ne c _ hc, h2]; simp

theorem two_le_splitOn_length {l : List Char} (h : '/' ∈ l) : 2 ≤ (l.splitOn '/').length := by
  induction l with
  | nil => simp at h
  | cons c cs ih =>
    by_cases hc : c = '/'
    · subst hc
      rw [splitOn_cons_slash]
      have : 0 < (cs.splitOn '/').length := List.length_pos.mpr (splitOn_slash_ne_nil cs)
      simp only [List.length_cons]
      omega
    · have hmem : '/' ∈ cs := by
        rcases List.mem_cons.mp h with h' | h'
        · exact absurd h'.symm hc
        · exact h'
      rw [splitOn_cons_ne c cs hc, List.length_modifyHead]
      exact ih hmem

/-! ### The Clean element loop -/

theorem cleanAux_nil (rooted : Bool) (stack : List (List Char)) :
    cleanAux rooted stack [] = stack.reverse := rfl

theorem cleanAux_skip (rooted : Bool) (stack : List (List Char)) (s : List Char)
    (rest : List (List Char)) (h : s = [] ∨ s = ['.']) :
    cleanAux rooted stack (s :: rest) = cleanAux rooted stack rest := by
  conv_lhs => unfold cleanAux
  rw [if_pos h]

theorem cleanAux_push (rooted : Bool) (stack : List (List Char)) (s : List Char)
    (rest : List (List Char)) (h1 : ¬ (s = [] ∨ s = ['.'])) (h2 : ¬ s = ['.', '.']) :
    cleanAux rooted stack (s :: rest) = cleanAux rooted (s :: stack) rest := by
  conv_lhs => unfold cleanAux
  rw [if_neg h1, if_neg h2]

theorem cleanAux_pop (rooted : Bool) (t : List Char) (stack' : List (List Char)) (s : List Char)
    (rest : List (List Char)) (h1 : ¬ (s = [] ∨ s = ['.'])) (h2 : s = ['.', '.'])
    (h3 : ¬ t = ['.', '.']) :
    cleanAux rooted (t :: stack') (s :: rest) = cleanAux rooted stack' rest := by
  conv_lhs => unfold cleanAux
  rw [if_neg h1, if_pos h2]
  show (if t = ['.', '.'] then cleanAux rooted (['.', '.'] :: t :: stack') rest
      else cleanAux rooted stack' rest) = cleanAux rooted stack' rest
  exact if_neg h3

theorem cleanAux_dotdot_nil (rooted : Bool) (rest : List (List Char)) :
    cleanAux rooted [] (['.', '.'] :: rest) =
      cleanAux rooted (if rooted then [] else [['.', '.']]) rest := by
  conv_lhs => unfold cleanAux
  rw [if_neg (by decide), if_pos rfl]
  show (if rooted = true then cleanAux rooted [] rest else cleanAux rooted [['.', '.']] rest) = _
  cases rooted <;> simp

theorem cleanAux_cons_exists (rooted : Bool) (stack : List (List Char)) (s : List Char)
    (rest : List (List Char)) :
    ∃ stack', cleanAux rooted stack (s :: rest) = cleanAux rooted stack' rest := by
  by_cases h1 : s = [] ∨ s = ['.']
  · exact ⟨stack, cleanAux_skip rooted stack s rest h1⟩
  by_cases h2 : s = ['.', '.']
  · cases stack with
    | nil => exact ⟨if rooted then [] else [['.', '.']], h2 ▸ cleanAux_dotdot_nil rooted rest⟩
    | cons t stack' =>
      by_cases h3 : t = ['.', '.']
      · refine ⟨['.', '.'] :: t :: stack', ?_⟩
        conv_lhs => unfold cleanAux
        rw [if_neg h1, if_pos h2]
        show (if t = ['.', '.'] then cleanAux rooted (['.', '.'] :: t :: stack') rest
            else cleanAux rooted stack' rest) = _
        exact if_pos h3
      · exact ⟨stack', cleanAux_pop rooted t stack' s rest h1 h2 h3⟩
  · exact ⟨s :: stack, cleanAux_push rooted stack s rest h1 h2⟩

theorem cleanAux_all_normal : ∀ (segs : List (List Char)) (stack : List (List Char)) (rooted : Bool),
    (∀ s ∈ segs, normalSeg s) → cleanAux rooted stack segs = stack.reverse ++ segs := by
  intro segs
  induction segs with
  | nil => intro stack rooted _; simp [cleanAux_nil]
  | cons s rest ih =>
    intro stack rooted h
    obtain ⟨hne, hd, hdd⟩ := h s (by simp)
    rw [cleanAux_push rooted stack s rest (by tauto) hdd]
    rw [ih (s :: stack) rooted (fun x hx => h x (List.mem_cons_of_mem _ hx))]
    simp

theorem cleanAux_no_dotdot : ∀ (segs : List (List Char)) (stack : List (List Char)) (rooted : Bool),
    (∀ s ∈ segs, s ≠ ['.', '.']) →
    cleanAux rooted stack segs = stack.reverse ++ segs.filter keepSeg := by
  intro segs
  induction segs with
  | nil => intro stack rooted _; simp [cleanAux_nil]
  | cons s rest ih =>
    intro stack rooted h
    by_cases h1 : s = [] ∨ s = ['.']
    · rw [cleanAux_skip rooted stack s rest h1,
        ih stack rooted (fun x hx => h x (List.mem_cons_of_mem _ hx))]
      have hk : keepSeg s = false := by simp [keepSeg, h1]
      rw [List.filter_cons, hk]
      simp
    · rw [cleanAux_push rooted stack s rest h1 (h s (by simp)),
        ih (s :: stack) rooted (fun x hx => h x (List.mem_cons_of_mem _ hx))]
      have hk : keepSeg s = true := by simp [keepSeg]; tauto
      rw [List.filter_cons, hk]
      simp

theorem cleanAux_ne_nil : ∀ (segs : List (List Char)) (stack : List (List Char)) (rooted : Bool)
    (u : List Char), segs.getLast? = some u → normalSeg u → cleanAux rooted stack segs ≠ [] := by
  intro segs
  induction segs with
  | nil => intro stack rooted u h; simp at h
  | cons s rest ih =>
    intro stack rooted u h hu
    cases rest with
    | nil =>
      have hs : s = u := by simpa using h
      subst hs
      rw [cleanAux_push rooted stack s [] (by
          rcases hu with ⟨h1, h2, _⟩
          tauto) hu.2.2]
      rw [cleanAux_nil]
      simp
    | cons r rest' =>
      obtain ⟨stack', hst⟩ := cleanAux_cons_exists rooted stack s (r :: rest')
      rw [hst]
      exact ih stack' rooted u (by simpa [List.getLast?_cons_cons] using h) hu

theorem cleanAux_mem_rooted : ∀ (segs : List (List Char)) (stack : List (List Char)),
    (∀ s ∈ stack, normalSeg s ∧ '/' ∉ s) → (∀ s ∈ segs, '/' ∉ s) →
    ∀ s ∈ cleanAux true stack segs, normalSeg s ∧ '/' ∉ s := by
  intro segs
  induction segs with
  | nil =>
    intro stack hstack _ s hs
    rw [cleanAux_nil] at hs
    exact hstack s (by simpa using hs)
  | cons a rest ih =>
    intro stack hstack hsegs s hs
    have hrest : ∀ x ∈ rest, '/' ∉ x := fun x hx => hsegs x (List.mem_cons_of_mem _ hx)
    by_cases h1 : a = [] ∨ a = ['.']
    · rw [cleanAux_skip true stack a rest h1] at hs
      exact ih stack hstack hrest s hs
    · by_cases h2 : a = ['.', '.']
      · cases stack with
        | nil =>
          rw [h2, cleanAux_dotdot_nil true rest] at hs
          simp only [if_pos rfl] at hs
          exact ih [] (by simp) hrest s hs
        | cons t stack' =>
          have ht := hstack t (by simp)
          rw [cleanAux_pop true t stack' a rest h1 h2 ht.1.2.2] at hs
          exact ih stack' (fun x hx => hstack x (List.mem_cons_of_mem _ hx)) hrest s hs
      · rw [cleanAux_push true stack a rest h1 h2] at hs
        refine ih (a :: stack) ?_ hrest s hs
        intro x hx
        rcases List.mem_cons.mp hx with rfl | hx'
        · exact ⟨⟨(not_or.mp h1).1, (not_or.mp h1).2, h2⟩, hsegs x (by simp)⟩
        · exact hstack x hx'

/-! ### The resolved storage location of a rooted request path -/

theorem stringsHasSuffix_iff (s suf : String) :
    stringsHasSuffix s suf = true ↔ ∃ t, t ++ suf.data = s.data := by
  show (suf.data.isSuffixOf s.data) = true ↔ _
  rw [List.isSuffixOf, List.isPrefixOf_iff_prefix, List.reverse_prefix]
  exact Iff.rfl

theorem normalSeg_append_ics (u : List Char) : normalSeg (u ++ ".ics".data) := by
  have hics : ".ics".data = ['.', 'i', 'c', 's'] := rfl
  refine ⟨?_, ?_, ?_⟩ <;> intro h <;> (have hlen := congrArg List.length h; simp [hics] at hlen)

theorem cleanList_rooted (t : List Char) :
    cleanList ('/' :: t) = '/' :: joinSegs (cleanAux true [] (t.splitOn '/')) := by
  unfold cleanList
  rw [if_neg (by simp), if_pos (by simp)]
  rw [splitOn_cons_slash, cleanAux_skip true [] [] _ (Or.inl rfl)]

theorem resolvedPath_rooted (p : String) (t : List Char) (hp : p.data = '/' :: t)
    (hL : cleanAux true [] (t.splitOn '/') ≠ [])
    (hLs : ∀ s ∈ cleanAux true [] (t.splitOn '/'), normalSeg s ∧ '/' ∉ s) :
    (resolvedPath p).data = dataDir.data ++ '/' :: joinSegs (cleanAux true [] (t.splitOn '/')) ∧
    (resolvedPath p).data.splitOn '/' = dataDir.data :: cleanAux true [] (t.splitOn '/') := by
  have hne : dataDir ≠ "" := by decide
  have hclean : (filepathClean p).data = '/' :: joinSegs (cleanAux true [] (t.splitOn '/')) := by
    show cleanList p.data = _
    rw [hp]
    exact cleanList_rooted t
  have hX : (dataDir ++ "/" ++ filepathClean p).data
      = "calendars".data ++ '/' :: ('/' :: joinSegs (cleanAux true [] (t.splitOn '/'))) := by
    rw [String.data_append, String.data_append, hclean]
    simp [dataDir]
  have hres : resolvedPath p = filepathClean (dataDir ++ "/" ++ filepathClean p) := by
    show filepathJoin dataDir (filepathClean p) = _
    rw [filepathJoin, if_pos hne]
  have hXne : ¬ ((dataDir ++ "/" ++ filepathClean p).data = []) := by
    rw [hX]; simp
  have hXhead : ¬ ((dataDir ++ "/" ++ filepathClean p).data.head? = some '/') := by
    have h9 : "calendars".data = 'c' :: "alendars".data := rfl
    rw [hX, h9, List.cons_append]
    simp
  have hsplitX : (dataDir ++ "/" ++ filepathClean p).data.splitOn '/'
      = "calendars".data :: [] :: cleanAux true [] (t.splitOn '/') := by
    rw [hX, splitOn_append_slash _ (by decide), splitOn_cons_slash,
      splitOn_joinSegs _ hL (fun s hs => (hLs s hs).2)]
  have hsegs : cleanAux false [] ("calendars".data :: [] :: cleanAux true [] (t.splitOn '/'))
      = "calendars".data :: cleanAux true [] (t.splitOn '/') := by
    rw [cleanAux_push false [] _ _ (by decide) (by decide),
      cleanAux_skip false _ [] _ (Or.inl rfl),
      cleanAux_all_normal _ _ false (fun s hs => (hLs s hs).1)]
    rfl
  have hresdata : (resolvedPath p).data
      = dataDir.data ++ '/' :: joinSegs (cleanAux true [] (t.splitOn '/')) := by
    rw [hres]
    show cleanList (dataDir ++ "/" ++ filepathClean p).data = _
    rw [cleanList]
    rw [if_neg hXne, if_neg hXhead]
    simp only [hsplitX, hsegs]
    rw [if_neg (by simp)]
    cases hLcase : cleanAux true [] (t.splitOn '/') with
    | nil => exact absurd hLcase hL
    | cons l0 L' => rfl
  refine ⟨hresdata, ?_⟩
  rw [hresdata]
  show (dataDir.data ++ '/' :: joinSegs (cleanAux true [] (t.splitOn '/'))).splitOn '/' = _
  rw [splitOn_append_slash _ (by decide),
    splitOn_joinSegs _ hL (fun s hs => (hLs s hs).2)]

theorem resolvedPath_spec (p : String) (hroot : p.data.head? = some '/')
    (hics : stringsHasSuffix p ".ics" = true) :
    ∃ L : List (List Char), L ≠ [] ∧ (∀ s ∈ L, normalSeg s ∧ '/' ∉ s) ∧
      (resolvedPath p).data = dataDir.data ++ '/' :: joinSegs L ∧
      (resolvedPath p).data.splitOn '/' = dataDir.data :: L := by
  cases hd : p.data with
  | nil => rw [hd] at hroot; simp at hroot
  | cons c t =>
    have hc : c = '/' := by rw [hd] at hroot; simpa using hroot
    subst hc
    obtain ⟨pre, hpre⟩ := (stringsHasSuffix_iff p ".ics").mp hics
    have hics4 : ".ics".data = ['.', 'i', 'c', 's'] := rfl
    cases pre with
    | nil =>
      rw [hd] at hpre
      rw [hics4] at hpre
      simp at hpre
    | cons c0 pre' =>
      have hc0 : c0 = '/' ∧ t = pre' ++ ".ics".data := by
        rw [hd] at hpre
        rw [List.cons_append] at hpre
        exact ⟨(List.cons.injEq _ _ _ _ ▸ hpre).1, ((List.cons.injEq _ _ _ _ ▸ hpre).2).symm⟩
      obtain ⟨I, u, _, h2⟩ := splitOn_append (m := ".ics".data) (by rw [hics4]; decide) pre'
      have hlast : (t.splitOn '/').getLast? = some (u ++ ".ics".data) := by
        rw [hc0.2, h2]
        exact List.getLast?_concat _
      have hL : cleanAux true [] (t.splitOn '/') ≠ [] :=
        cleanAux_ne_nil _ [] true _ hlast (normalSeg_append_ics u)
      have hLs : ∀ s ∈ cleanAux true [] (t.splitOn '/'), normalSeg s ∧ '/' ∉ s :=
        cleanAux_mem_rooted _ [] (by simp) (mem_splitOn_no_slash t)
      obtain ⟨hdata, hsplit⟩ := resolvedPath_rooted p t hd hL hLs
      exact ⟨cleanAux true [] (t.splitOn '/'), hL, hLs, hdata, hsplit⟩

/-! ### Handler branch behaviour -/

theorem lookupStr_setFile_same (k v : String) (files : List (String × String)) :
    lookupStr k (setFile k v files) = some v := by
  simp [setFile, lookupStr]

theorem authSucceeds_true_iff (users : List (String × String)) (a : Option (String × String)) :
    authSucceeds users a = true ↔
      ∃ u pw, a = some (u, pw) ∧ lookupStr u users = some pw := by
  cases a with
  | none => simp [authSucceeds]
  | some up =>
    obtain ⟨u, pw⟩ := up
    cases hl : lookupStr u users with
    | none => simp [authSucceeds, hl]
    | some e =>
      simp only [authSucceeds, hl, decide_eq_true_eq]
      constructor
      · intro h
        exact ⟨u, pw, rfl, by rw [hl, h]⟩
      · rintro ⟨u', pw', heq, hl'⟩
        have hpair := Option.some.inj heq
        rw [show u' = u from congrArg Prod.fst hpair.symm,
          show pw' = pw from congrArg Prod.snd hpair.symm, hl] at hl'
        exact Option.some.inj hl'

theorem handleGet_bad_suffix (fs : FS) (r : Request)
    (hsuf : ¬ stringsHasSuffix r.path ".ics" = true) :
    handleGetCalendar fs r = (httpNotFound, fs) := by
  unfold handleGetCalendar
  rw [if_pos hsuf]

theorem handleGet_no_file (fs : FS) (r : Request)
    (hsuf : stringsHasSuffix r.path ".ics" = true)
    (hl : lookupStr (resolvedPath r.path) fs.files = none) :
    handleGetCalendar fs r = (httpNotFound, fs) := by
  have hl' : lookupStr (filepathJoin dataDir (filepathClean r.path)) fs.files = none := hl
  simp only [handleGetCalendar]
  rw [if_neg (by simp [hsuf]), hl']

theorem handleGet_dotdot (fs : FS) (r : Request) (content : String)
    (hsuf : stringsHasSuffix r.path ".ics" = true)
    (hl : lookupStr (resolvedPath r.path) fs.files = some content)
    (hdd : containsDotDot r.path = true) :
    handleGetCalendar fs r = (httpError "invalid URL path" 400, fs) := by
  have hl' : lookupStr (filepathJoin dataDir (filepathClean r.path)) fs.files = some content := hl
  simp only [handleGetCalendar]
  rw [if_neg (by simp [hsuf]), hl']
  simp only [hdd, if_true]

theorem handleGet_serves (fs : FS) (r : Request) (content : String)
    (hsuf : stringsHasSuffix r.path ".ics" = true)
    (hl : lookupStr (resolvedPath r.path) fs.files = some content)
    (hdd : containsDotDot r.path = false) :
    handleGetCalendar fs r =
      ({ status := 200, contentType := some "text/calendar; charset=utf-8",
         wwwAuthenticate := none, body := content }, fs) := by
  have hl' : lookupStr (filepathJoin dataDir (filepathClean r.path)) fs.files = some content := hl
  simp only [handleGetCalendar]
  rw [if_neg (by simp [hsuf]), hl']
  simp [hdd]

theorem handleGet_fs (fs : FS) (r : Request) : (handleGetCalendar fs r).2 = fs := by
  by_cases hsuf : stringsHasSuffix r.path ".ics" = true
  · cases hl : lookupStr (resolvedPath r.path) fs.files with
    | none => rw [handleGet_no_file fs r hsuf hl]
    | some content =>
      by_cases hdd : containsDotDot r.path = true
      · rw [handleGet_dotdot fs r content hsuf hl hdd]
      · rw [handleGet_serves fs r content hsuf hl (by simpa using hdd)]
  · rw [handleGet_bad_suffix fs r hsuf]

theorem handleGet_200_body (fs : FS) (r : Request)
    (h : (handleGetCalendar fs r).1.status = 200) :
    lookupStr (resolvedPath r.path) fs.files = some ((handleGetCalendar fs r).1.body) := by
  by_cases hsuf : stringsHasSuffix r.path ".ics" = true
  · cases hl : lookupStr (resolvedPath r.path) fs.files with
    | none => rw [handleGet_no_file fs r hsuf hl] at h; simp [httpNotFound, httpError] at h
    | some content =>
      by_cases hdd : containsDotDot r.path = true
      · rw [handleGet_dotdot fs r content hsuf hl hdd] at h; simp [httpError] at h
      · rw [handleGet_serves fs r content hsuf hl (by simpa using hdd)]
  · rw [handleGet_bad_suffix fs r hsuf] at h; simp [httpNotFound, httpError] at h

theorem authMiddleware_not_ok (users : List (String × String)) (fs : FS) (r : Request)
    (h : authSucceeds users r.basicAuth = false) :
    authMiddleware users handlePutCalendar fs r = (unauthorizedResponse, fs) := by
  cases hba : r.basicAuth with
  | none => simp [authMiddleware, hba]
  | some up =>
    obtain ⟨u, pw⟩ := up
    rw [hba] at h
    cases hl : lookupStr u users with
    | none => simp [authMiddleware, hba, hl]
    | some e =>
      simp only [authSucceeds, hl, decide_eq_false_iff_not] at h
      simp [authMiddleware, hba, hl, h]

theorem authMiddleware_ok (users : List (String × String))
    (next : String → FS → Request → Response × FS) (fs : FS) (r : Request)
    (u pw : String) (hba : r.basicAuth = some (u, pw))
    (hl : lookupStr u users = some pw) :
    authMiddleware users next fs r = next u fs r := by
  simp [authMiddleware, hba, hl]

theorem handlePut_bad_suffix (authUser : String) (fs : FS) (r : Request)
    (hsuf : ¬ stringsHasSuffix r.path ".ics" = true) :
    handlePutCalendar authUser fs r = (httpError "Invalid path. Must end with .ics" 400, fs) := by
  unfold handlePutCalendar
  rw [if_pos hsuf]

theorem handlePut_bad_format (authUser : String) (fs : FS) (r : Request)
    (hsuf : stringsHasSuffix r.path ".ics" = true)
    (hlen : ((trimSlashes r.path.data).splitOn '/').length < 2) :
    handlePutCalendar authUser fs r =
      (httpError "Invalid path format. Expected /\x7busername\x7d/\x7bcalendar\x7d.ics" 400, fs) := by
  unfold handlePutCalendar
  rw [if_neg (by simp [hsuf])]
  simp only [hlen, if_true]

theorem handlePut_forbidden (authUser : String) (fs : FS) (r : Request)
    (hsuf : stringsHasSuffix r.path ".ics" = true)
    (hlen : ¬ ((trimSlashes r.path.data).splitOn '/').length < 2)
    (hne : ¬ authUser.data = ((trimSlashes r.path.data).splitOn '/').headI) :
    handlePutCalendar authUser fs r =
      (httpError "Forbidden. You can only edit your own calendars." 403, fs) := by
  unfold handlePutCalendar
  rw [if_neg (by simp [hsuf]), if_neg hlen, if_pos hne]

theorem handlePut_success (authUser : String) (fs : FS) (r : Request)
    (hsuf : stringsHasSuffix r.path ".ics" = true)
    (hlen : ¬ ((trimSlashes r.path.data).splitOn '/').length < 2)
    (heq : authUser.data = ((trimSlashes r.path.data).splitOn '/').headI) :
    handlePutCalendar authUser fs r =
      ({ status := 204, contentType := none, wwwAuthenticate := none, body := "" },
       { files := setFile (resolvedPath r.path) r.body fs.files
         dirs := insertDir (filepathDir (resolvedPath r.path)) fs.dirs }) := by
  unfold handlePutCalendar
  rw [if_neg (by simp [hsuf]), if_neg hlen, if_neg (by simpa using heq)]
  rfl

theorem calendarHandler_put (users : List (String × String)) (fs : FS) (r : Request)
    (hm : r.method = .put) :
    calendarHandler users fs r = authMiddleware users handlePutCalendar fs r := by
  unfold calendarHandler
  rw [hm]

theorem calendarHandler_get (users : List (String × String)) (fs : FS) (r : Request)
    (hm : r.method = .get) :
    calendarHandler users fs r = handleGetCalendar fs r := by
  unfold calendarHandler
  rw [hm]

theorem put_204_inv (users : List (String × String)) (fs : FS) (r : Request)
    (hm : r.method = .put) (h : (calendarHandler users fs r).1.status = 204) :
    stringsHasSuffix r.path ".ics" = true ∧
    calendarHandler users fs r =
      ({ status := 204, contentType := none, wwwAuthenticate := none, body := "" },
       { files := setFile (resolvedPath r.path) r.body fs.files
         dirs := insertDir (filepathDir (resolvedPath r.path)) fs.dirs }) := by
  rw [calendarHandler_put users fs r hm] at h ⊢
  by_cases ha : authSucceeds users r.basicAuth = true
  · obtain ⟨u, pw, hba, hl⟩ := (authSucceeds_true_iff users r.basicAuth).mp ha
    rw [authMiddleware_ok users handlePutCalendar fs r u pw hba hl] at h ⊢
    by_cases hsuf : stringsHasSuffix r.path ".ics" = true
    · by_cases hlen : ((trimSlashes r.path.data).splitOn '/').length < 2
      · rw [handlePut_bad_format u fs r hsuf hlen] at h
        simp [httpError] at h
      · by_cases heq : u.data = ((trimSlashes r.path.data).splitOn '/').headI
        · exact ⟨hsuf, handlePut_success u fs r hsuf hlen heq⟩
        · rw [handlePut_forbidden u fs r hsuf hlen heq] at h
          simp [httpError] at h
    · rw [handlePut_bad_suffix u fs r hsuf] at h
      simp [httpError] at h
  · rw [authMiddleware_not_ok users fs r (by simpa using ha)] at h
    simp [unauthorizedResponse, httpError] at h

/-! ### Trimming and the owner segment of a request path -/

theorem dropWhile_slash_eq_self (l : List Char) (hh : l.head? ≠ some '/') :
    l.dropWhile (fun c => c = '/') = l := by
  cases l with
  | nil => rfl
  | cons c cs =>
    have hc : ¬ c = '/' := fun h => hh (by rw [h]; rfl)
    rw [List.dropWhile_cons, if_neg (by simpa using hc)]

theorem trimSlashes_cons_slash (z : List Char) : trimSlashes ('/' :: z) = trimSlashes z := by
  unfold trimSlashes
  rw [List.dropWhile_cons]
  simp

theorem trimSlashes_eq_self (l : List Char) (hh : l.head? ≠ some '/')
    (hl : l.getLast? ≠ some '/') : trimSlashes l = l := by
  unfold trimSlashes
  rw [dropWhile_slash_eq_self l hh,
    dropWhile_slash_eq_self l.reverse (by rw [List.head?_reverse]; exact hl)]
  exact List.reverse_reverse l

theorem getLast?_ends_ics (A : List Char) : (A ++ ".ics".data).getLast? = some 's' := by
  have h : A ++ ".ics".data = (A ++ ['.', 'i', 'c']) ++ ['s'] := by
    show A ++ ['.', 'i', 'c', 's'] = _
    simp
  rw [h, List.getLast?_concat]

theorem userCalendarPath_data (U N : String) :
    (userCalendarPath U N).data = '/' :: (U.data ++ '/' :: (N.data ++ ".ics".data)) := by
  simp [userCalendarPath, String.data_append, List.append_assoc]

theorem hasSuffix_ics_userCalendarPath (U N : String) :
    stringsHasSuffix (userCalendarPath U N) ".ics" = true := by
  rw [stringsHasSuffix_iff]
  refine ⟨'/' :: (U.data ++ '/' :: N.data), ?_⟩
  rw [userCalendarPath_data]
  simp

theorem parts_userCalendarPath (U N : String) (hU : U ≠ "") (hUs : '/' ∉ U.data) :
    (trimSlashes (userCalendarPath U N).data).splitOn '/' =
      U.data :: (N.data ++ ".ics".data).splitOn '/' := by
  rw [userCalendarPath_data, trimSlashes_cons_slash]
  rw [trimSlashes_eq_self _ ?hh ?hl]
  · exact splitOn_append_slash _ hUs
  case hh =>
    cases hUd : U.data with
    | nil =>
      exact absurd (String.ext hUd) hU
    | cons c cs =>
      have hc : ¬ c = '/' := fun h => hUs (by rw [hUd, h]; simp)
      simp [hc]
  case hl =>
    have h : U.data ++ '/' :: (N.data ++ ".ics".data)
        = (U.data ++ '/' :: N.data) ++ ".ics".data := by simp
    rw [h, getLast?_ends_ics]
    simp

theorem put_userCalendarPath_success (users : List (String × String)) (fs : FS)
    (U pw N D : String) (hl : lookupStr U users = some pw) (hU : U ≠ "") (hUs : '/' ∉ U.data) :
    calendarHandler users fs ⟨.put, userCalendarPath U N, some (U, pw), D⟩ =
      ({ status := 204, contentType := none, wwwAuthenticate := none, body := "" },
       { files := setFile (resolvedPath (userCalendarPath U N)) D fs.files
         dirs := insertDir (filepathDir (resolvedPath (userCalendarPath U N))) fs.dirs }) := by
  rw [calendarHandler_put _ _ _ rfl,
    authMiddleware_ok users handlePutCalendar fs _ U pw rfl hl]
  apply handlePut_success
  · exact hasSuffix_ics_userCalendarPath U N
  · show ¬ ((trimSlashes (userCalendarPath U N).data).splitOn '/').length < 2
    rw [parts_userCalendarPath U N hU hUs]
    have hpos : 0 < ((N.data ++ ['.', 'i', 'c', 's']).splitOn '/').length :=
      List.length_pos.mpr (splitOn_slash_ne_nil _)
    simp only [List.length_cons]
    omega
  · show U.data = ((trimSlashes (userCalendarPath U N).data).splitOn '/').headI
    rw [parts_userCalendarPath U N hU hUs]
    rfl

theorem put_forbidden_route (users : List (String × String)) (fs : FS) (r : Request)
    (u pw : String) (hba : r.basicAuth = some (u, pw)) (hl : lookupStr u users = some pw)
    (hm : r.method = .put) (hsuf : stringsHasSuffix r.path ".ics" = true)
    (hlen : ¬ ((trimSlashes r.path.data).splitOn '/').length < 2)
    (hne : ¬ u.data = ((trimSlashes r.path.data).splitOn '/').headI) :
    calendarHandler users fs r =
      (httpError "Forbidden. You can only edit your own calendars." 403, fs) := by
  rw [calendarHandler_put users fs r hm,
    authMiddleware_ok users handlePutCalendar fs r u pw hba hl]
  exact handlePut_forbidden u fs r hsuf hlen hne

/-! ### Paths with a single element after trimming, and owned locations -/

theorem splitOn_replicate_slash : ∀ (k : Nat) (core : List Char), '/' ∉ core →
    (List.replicate k '/' ++ core).splitOn '/' = List.replicate k [] ++ [core] := by
  intro k
  induction k with
  | zero => intro core h; simpa using splitOn_no_slash h
  | succ n ih =>
    intro core h
    rw [List.replicate_succ, List.replicate_succ, List.cons_append, List.cons_append,
      splitOn_cons_slash, ih core h]

theorem cleanAux_replicate_empty : ∀ (k : Nat) (rooted : Bool) (stack segs : List (List Char)),
    cleanAux rooted stack (List.replicate k [] ++ segs) = cleanAux rooted stack segs := by
  intro k
  induction k with
  | zero => intro rooted stack segs; rfl
  | succ n ih =>
    intro rooted stack segs
    rw [List.replicate_succ, List.cons_append, cleanAux_skip _ _ _ _ (Or.inl rfl), ih]

theorem dropWhile_getLast (l : List Char) (c : Char) (hlast : l.getLast? = some c)
    (hc : ¬ c = '/') :
    (l.dropWhile (fun x => x = '/')).getLast? = some c ∧ l.dropWhile (fun x => x = '/') ≠ [] := by
  have hne : l.dropWhile (fun x => x = '/') ≠ [] := by
    intro h
    have hall := List.dropWhile_eq_nil_iff.mp h
    have hmem := List.mem_of_getLast?_eq_some hlast
    have hcs := hall c hmem
    simp at hcs
    exact hc hcs
  refine ⟨?_, hne⟩
  obtain ⟨t, ht⟩ := List.dropWhile_suffix (l := l) (fun x => x = '/')
  rw [← ht, List.getLast?_append] at hlast
  cases hd : (l.dropWhile (fun x => x = '/')).getLast? with
  | none => exact absurd (List.getLast?_eq_none_iff.mp hd) hne
  | some x =>
    rw [hd] at hlast
    simpa using hlast

theorem trimSlashes_of_last (l : List Char) (c : Char) (hlast : l.getLast? = some c)
    (hc : ¬ c = '/') :
    trimSlashes l = l.dropWhile (fun x => x = '/') ∧ trimSlashes l ≠ [] ∧
      (trimSlashes l).getLast? = some c := by
  obtain ⟨hd, hne⟩ := dropWhile_getLast l c hlast hc
  have heq : trimSlashes l = l.dropWhile (fun x => x = '/') := by
    unfold trimSlashes
    rw [dropWhile_slash_eq_self _ (by rw [List.head?_reverse, hd]; simp [hc])]
    exact List.reverse_reverse _
  exact ⟨heq, by rw [heq]; exact hne, by rw [heq]; exact hd⟩

theorem resolvedPath_short (p : String) (hroot : p.data.head? = some '/')
    (hics : stringsHasSuffix p ".ics" = true)
    (hlen : ((trimSlashes p.data).splitOn '/').length < 2) :
    ((resolvedPath p).data.splitOn '/').length = 2 := by
  obtain ⟨pre, hpre⟩ := (stringsHasSuffix_iff p ".ics").mp hics
  have hlast : p.data.getLast? = some 's' := by rw [← hpre]; exact getLast?_ends_ics pre
  obtain ⟨htrim, htne, htlast⟩ := trimSlashes_of_last p.data 's' hlast (by decide)
  have hnos : '/' ∉ p.data.dropWhile (fun x => x = '/') := by
    intro hmem
    have h2 := two_le_splitOn_length hmem
    rw [htrim] at hlen
    omega
  have hsplit_p : p.data
      = List.replicate (p.data.takeWhile (fun x => x = '/')).length '/'
        ++ p.data.dropWhile (fun x => x = '/') := by
    conv_lhs => rw [← List.takeWhile_append_dropWhile (fun x => x = '/') p.data]
    congr 1
    apply List.eq_replicate_of_mem
    intro b hb
    have hbp := List.mem_takeWhile_imp hb
    simpa using hbp
  have hdne : p.data.dropWhile (fun x => x = '/') ≠ [] := by rw [← htrim]; exact htne
  have hdlast : (p.data.dropWhile (fun x => x = '/')).getLast? = some 's' := by
    rw [← htrim]; exact htlast
  have hdnormal : normalSeg (p.data.dropWhile (fun x => x = '/')) := by
    refine ⟨hdne, ?_, ?_⟩ <;> intro h <;> rw [h] at hdlast <;> exact absurd hdlast (by decide)
  have hsp : p.data.splitOn '/'
      = List.replicate (p.data.takeWhile (fun x => x = '/')).length []
        ++ [p.data.dropWhile (fun x => x = '/')] := by
    conv_lhs => rw [hsplit_p]
    exact splitOn_replicate_slash _ _ hnos
  cases hpd : p.data with
  | nil => rw [hpd] at hroot; simp at hroot
  | cons c t =>
    have hc : c = '/' := by rw [hpd] at hroot; simpa using hroot
    subst hc
    have hk : 1 ≤ (p.data.takeWhile (fun x => x = '/')).length := by
      rw [hpd, List.takeWhile_cons]
      simp
    have hts : t.splitOn '/'
        = List.replicate ((p.data.takeWhile (fun x => x = '/')).length - 1) []
          ++ [p.data.dropWhile (fun x => x = '/')] := by
      have h1 : ('/' :: t).splitOn '/' = [] :: t.splitOn '/' := splitOn_cons_slash t
      rw [← hpd, hsp] at h1
      have hk1 : (p.data.takeWhile (fun x => x = '/')).length
          = ((p.data.takeWhile (fun x => x = '/')).length - 1) + 1 := by omega
      rw [hk1, List.replicate_succ, List.cons_append, List.cons_inj_right] at h1
      exact h1.symm
    have hL : cleanAux true [] (t.splitOn '/') = [p.data.dropWhile (fun x => x = '/')] := by
      rw [hts, cleanAux_replicate_empty]
      rw [cleanAux_push true [] _ [] (by
          rcases hdnormal with ⟨h1, h2, h3⟩
          tauto) hdnormal.2.2]
      rfl
    have hLs : ∀ s ∈ cleanAux true [] (t.splitOn '/'), normalSeg s ∧ '/' ∉ s :=
      cleanAux_mem_rooted _ [] (by simp) (mem_splitOn_no_slash t)
    obtain ⟨_, hsplitres⟩ := resolvedPath_rooted p t hpd (by rw [hL]; simp) hLs
    rw [hsplitres, hL]
    rfl

theorem ownedLocation_segments (U N : String) (hUn : normalSeg U.data) (hUs : '/' ∉ U.data)
    (hN : ∀ s ∈ N.data.splitOn '/', s ≠ ['.', '.']) :
    3 ≤ ((ownedLocation U N).data.splitOn '/').length := by
  have hPd := userCalendarPath_data U N
  obtain ⟨I, u, hNs, hrest⟩ := splitOn_append (m := ".ics".data) (by decide) N.data
  have hts : (U.data ++ '/' :: (N.data ++ ".ics".data)).splitOn '/'
      = U.data :: (I ++ [u ++ ".ics".data]) := by
    rw [splitOn_append_slash _ hUs, hrest]
  have hIdd : ∀ s ∈ I ++ [u ++ ".ics".data], s ≠ ['.', '.'] := by
    intro s hs
    rcases List.mem_append.mp hs with hsI | hsu
    · exact hN s (by rw [hNs]; exact List.mem_append_left _ hsI)
    · have hsu' : s = u ++ ".ics".data := by simpa using hsu
      rw [hsu']
      exact (normalSeg_append_ics u).2.2
  have hL : cleanAux true [] ((U.data ++ '/' :: (N.data ++ ".ics".data)).splitOn '/')
      = U.data :: (I ++ [u ++ ".ics".data]).filter keepSeg := by
    rw [hts]
    rw [cleanAux_push true [] U.data _ (by
        rcases hUn with ⟨h1, h2, h3⟩
        tauto) hUn.2.2]
    rw [cleanAux_no_dotdot _ _ _ hIdd]
    rfl
  have hkeep : keepSeg (u ++ ".ics".data) = true := by
    have hn := normalSeg_append_ics u
    simp only [keepSeg, decide_eq_true_eq]
    rintro (h | h)
    · exact hn.1 h
    · exact hn.2.1 h
  have hfl : (I ++ [u ++ ".ics".data]).filter keepSeg
      = I.filter keepSeg ++ [u ++ ".ics".data] := by
    rw [List.filter_append, List.filter_singleton, hkeep]
    rfl
  have hLs : ∀ s ∈ cleanAux true [] ((U.data ++ '/' :: (N.data ++ ".ics".data)).splitOn '/'),
      normalSeg s ∧ '/' ∉ s :=
    cleanAux_mem_rooted _ [] (by simp) (mem_splitOn_no_slash _)
  have hLne : cleanAux true [] ((U.data ++ '/' :: (N.data ++ ".ics".data)).splitOn '/') ≠ [] := by
    rw [hL]; simp
  obtain ⟨_, hsplitres⟩ := resolvedPath_rooted (userCalendarPath U N) _ hPd hLne hLs
  show 3 ≤ ((resolvedPath (userCalendarPath U N)).data.splitOn '/').length
  rw [hsplitres, hL, hfl]
  simp only [List.length_cons, List.length_append, List.length_singleton]
  omega

/-! ### Claim C1 -/

/-- C1: for every inbound URL path (rooted, as every HTTP request path is) that
ends in the calendar suffix — including paths containing `.` or `..` traversal
segments — the storage location computed by joining the fixed storage root with
the cleaned request path (the computation shared by the GET and PUT handlers)
is a strict descendant of the storage root `calendars`, never a path outside it. -/
theorem c1_traversal_safe (p : String) (hroot : p.data.head? = some '/')
    (hics : stringsHasSuffix p ".ics" = true) :
    strictDescendant dataDir (resolvedPath p) := by
  obtain ⟨L, hL, hLs, hdata, hsplit⟩ := resolvedPath_spec p hroot hics
  constructor
  · exact ⟨joinSegs L, hdata⟩
  · intro s hs
    rw [hsplit] at hs
    rcases List.mem_cons.mp hs with rfl | hsL
    · exact ⟨by decide, by decide, by decide⟩
    · exact (hLs s hsL).1

/-- Witness for C1 at the traversal path `/a/../../x.ics`. -/
theorem c1_traversal_safe_witness :
    strictDescendant dataDir (resolvedPath "/a/../../x.ics") :=
  c1_traversal_safe "/a/../../x.ics" (by decide) (by decide)

/-! ### Claim C2 -/

/-- C2 counterexample: a PUT to `/u1/../u2/c.ics` authenticated as `u1` has
owner segment `u2` after normalization (`filepath.Clean` turns the path into
`/u2/c.ics`), yet the ownership check at `main.go` line 191 compares the raw
first segment `u1` against the authenticated user, so the server answers 204,
creates the directory `calendars/u2`, and stores the body at
`calendars/u2/c.ics` — a write into `u2`'s namespace, not the claimed 403 with
unchanged storage. -/
theorem c2_counterexample :
    filepathClean "/u1/../u2/c.ics" = "/u2/c.ics" ∧
    (calendarHandler [("u1", "pw")] ⟨[], []⟩
        ⟨.put, "/u1/../u2/c.ics", some ("u1", "pw"), "B"⟩).1.status = 204 ∧
    lookupStr "calendars/u2/c.ics"
        ((calendarHandler [("u1", "pw")] ⟨[], []⟩
          ⟨.put, "/u1/../u2/c.ics", some ("u1", "pw"), "B"⟩).2).files = some "B" ∧
    "calendars/u2" ∈
      ((calendarHandler [("u1", "pw")] ⟨[], []⟩
        ⟨.put, "/u1/../u2/c.ics", some ("u1", "pw"), "B"⟩).2).dirs := by
  decide

/-- C2 (amended): for distinct usernames `u1 ≠ u2`, a PUT authenticated as
`u1` to a calendar path whose owner segment — the first `/`-separated segment
of the raw trimmed path, before any lexical normalization — is `u2` is
answered with 403 Forbidden, and the filesystem — files and directories — is
unchanged. -/
theorem c2_cross_user_forbidden (users : List (String × String)) (fs : FS)
    (u1 u2 pw body p : String)
    (hne : ¬ u1 = u2)
    (hl : lookupStr u1 users = some pw)
    (hsuf : stringsHasSuffix p ".ics" = true)
    (hlen : ¬ ((trimSlashes p.data).splitOn '/').length < 2)
    (howner : ((trimSlashes p.data).splitOn '/').headI = u2.data) :
    calendarHandler users fs ⟨.put, p, some (u1, pw), body⟩ =
      (httpError "Forbidden. You can only edit your own calendars." 403, fs) := by
  refine put_forbidden_route users fs ⟨.put, p, some (u1, pw), body⟩ u1 pw rfl hl rfl hsuf hlen ?_
  show ¬ u1.data = ((trimSlashes p.data).splitOn '/').headI
  rw [howner]
  exact fun h => hne (String.ext h)

/-- Witness for C2: `alice` writing into `bob`'s namespace is rejected and the
stored file keeps its prior content. -/
theorem c2_cross_user_forbidden_witness :
    calendarHandler [("alice", "pw1"), ("bob", "pw2")]
        ⟨[("calendars/bob/b.ics", "old")], ["calendars"]⟩
        ⟨.put, "/bob/b.ics", some ("alice", "pw1"), "EVIL"⟩ =
      (httpError "Forbidden. You can only edit your own calendars." 403,
       ⟨[("calendars/bob/b.ics", "old")], ["calendars"]⟩) :=
  c2_cross_user_forbidden [("alice", "pw1"), ("bob", "pw2")]
    ⟨[("calendars/bob/b.ics", "old")], ["calendars"]⟩
    "alice" "bob" "pw1" "EVIL" "/bob/b.ics"
    (by decide) (by decide) (by decide) (by decide) (by decide)

/-! ### Claim C3 -/

/-- C3 counterexample: with the credential store mapping `u` to `pw`, a PUT of
body `DATA` to `/u/../v.ics` authenticated as `u` succeeds with 204 (the file
is stored at `calendars/v.ics`), but the subsequent GET of the same path is
rejected with 400 by the `..`-element check in `http.ServeFile` — not answered
with 200 and body `DATA` as the claim states for every calendar name. -/
theorem c3_counterexample :
    (calendarHandler [("u", "pw")] ⟨[], []⟩
        ⟨.put, "/u/../v.ics", some ("u", "pw"), "DATA"⟩).1.status = 204 ∧
    (calendarHandler [("u", "pw")]
        (calendarHandler [("u", "pw")] ⟨[], []⟩
          ⟨.put, "/u/../v.ics", some ("u", "pw"), "DATA"⟩).2
        ⟨.get, "/u/../v.ics", some ("u", "pw"), ""⟩).1.status = 400 := by
  decide

/-- C3 (amended): for every username `U` in the credential store that is
nonempty and separator-free, every calendar name `N`, and every payload `D`
such that the path `/U/N.ics` contains no `..` element, a PUT to that path
authenticated as `U` with body `D` succeeds with 204, and a subsequent GET of
the same path (with any credentials) returns 200 with body exactly `D`. -/
theorem c3_write_then_read (users : List (String × String)) (fs : FS) (U pw N D : String)
    (a' : Option (String × String)) (b' : String)
    (hl : lookupStr U users = some pw) (hU : U ≠ "") (hUs : '/' ∉ U.data)
    (hdd : containsDotDot (userCalendarPath U N) = false) :
    (calendarHandler users fs ⟨.put, userCalendarPath U N, some (U, pw), D⟩).1.status = 204 ∧
    (calendarHandler users
        (calendarHandler users fs ⟨.put, userCalendarPath U N, some (U, pw), D⟩).2
        ⟨.get, userCalendarPath U N, a', b'⟩).1 =
      { status := 200, contentType := some "text/calendar; charset=utf-8",
        wwwAuthenticate := none, body := D } := by
  have hput := put_userCalendarPath_success users fs U pw N D hl hU hUs
  constructor
  · rw [hput]
  · rw [hput, calendarHandler_get _ _ _ rfl,
      handleGet_serves _ _ D (hasSuffix_ics_userCalendarPath U N)
        (lookupStr_setFile_same _ _ _) hdd]

/-- Witness for C3 (amended) at `U = alice`, `N = work`, `D = X`. -/
theorem c3_write_then_read_witness :
    (calendarHandler [("alice", "s3cr3t")] ⟨[], []⟩
        ⟨.put, userCalendarPath "alice" "work", some ("alice", "s3cr3t"), "X"⟩).1.status = 204 ∧
    (calendarHandler [("alice", "s3cr3t")]
        (calendarHandler [("alice", "s3cr3t")] ⟨[], []⟩
          ⟨.put, userCalendarPath "alice" "work", some ("alice", "s3cr3t"), "X"⟩).2
        ⟨.get, userCalendarPath "alice" "work", none, ""⟩).1 =
      { status := 200, contentType := some "text/calendar; charset=utf-8",
        wwwAuthenticate := none, body := "X" } :=
  c3_write_then_read [("alice", "s3cr3t")] ⟨[], []⟩ "alice" "s3cr3t" "work" "X" none ""
    (by decide) (by decide) (by decide) (by decide)

/-! ### Claim C4 -/

/-- C4: a PUT without credentials, a PUT for a username `u` absent from the
credential store, and a PUT for an existing username `v` with a wrong secret
all produce literally the same failure: status 401, the same challenge header,
the same plain-text body, and no filesystem change — no observable signal
distinguishes a nonexistent username from a wrong secret. -/
theorem c4_uniform_unauthorized (users : List (String × String)) (fs : FS)
    (p b u pw v pw' e : String)
    (hu : lookupStr u users = none)
    (hv : lookupStr v users = some e) (hwrong : ¬ e = pw') :
    calendarHandler users fs ⟨.put, p, none, b⟩ = (unauthorizedResponse, fs) ∧
    calendarHandler users fs ⟨.put, p, some (u, pw), b⟩ = (unauthorizedResponse, fs) ∧
    calendarHandler users fs ⟨.put, p, some (v, pw'), b⟩ = (unauthorizedResponse, fs) ∧
    unauthorizedResponse =
      { status := 401, contentType := some "text/plain; charset=utf-8",
        wwwAuthenticate := some "Basic realm=\"Restricted\"", body := "Unauthorized\n" } := by
  refine ⟨?_, ?_, ?_, by decide⟩
  · rw [calendarHandler_put _ _ _ rfl]
    exact authMiddleware_not_ok users fs _ (by simp [authSucceeds])
  · rw [calendarHandler_put _ _ _ rfl]
    exact authMiddleware_not_ok users fs _ (by simp [authSucceeds, hu])
  · rw [calendarHandler_put _ _ _ rfl]
    refine authMiddleware_not_ok users fs _ ?_
    show authSucceeds users (some (v, pw')) = false
    simp [authSucceeds, hv]
    exact hwrong

/-- Witness for C4 with store `v ↦ secret`, invalid path and three failing
credential shapes. -/
theorem c4_uniform_unauthorized_witness :
    calendarHandler [("v", "secret")] ⟨[], []⟩ ⟨.put, "/x/y.ics", none, "B"⟩ =
      (unauthorizedResponse, ⟨[], []⟩) ∧
    calendarHandler [("v", "secret")] ⟨[], []⟩ ⟨.put, "/x/y.ics", some ("ghost", "z"), "B"⟩ =
      (unauthorizedResponse, ⟨[], []⟩) ∧
    calendarHandler [("v", "secret")] ⟨[], []⟩ ⟨.put, "/x/y.ics", some ("v", "wrong"), "B"⟩ =
      (unauthorizedResponse, ⟨[], []⟩) ∧
    unauthorizedResponse =
      { status := 401, contentType := some "text/plain; charset=utf-8",
        wwwAuthenticate := some "Basic realm=\"Restricted\"", body := "Unauthorized\n" } :=
  c4_uniform_unauthorized [("v", "secret")] ⟨[], []⟩ "/x/y.ics" "B" "ghost" "z" "v" "wrong"
    "secret" (by decide) (by decide) (by decide)

/-! ### Claim C5 -/

/-- C5: whenever a PUT succeeds (status 204) over a filesystem that already
holds content `C1` at the resolved location, the stored document afterwards is
exactly the request body — a full replacement, never `C1`, a concatenation, or
a merge — and any subsequent GET of the same path that returns a document
(status 200) returns exactly that body. -/
theorem c5_full_replacement (users : List (String × String)) (fs : FS) (r : Request)
    (C1 : String) (hm : r.method = .put)
    (hprior : lookupStr (resolvedPath r.path) fs.files = some C1)
    (h204 : (calendarHandler users fs r).1.status = 204) :
    lookupStr (resolvedPath r.path) ((calendarHandler users fs r).2).files = some r.body ∧
    ∀ a' b', (calendarHandler users ((calendarHandler users fs r).2)
        ⟨.get, r.path, a', b'⟩).1.status = 200 →
      (calendarHandler users ((calendarHandler users fs r).2)
        ⟨.get, r.path, a', b'⟩).1.body = r.body := by
  obtain ⟨hsuf, heq⟩ := put_204_inv users fs r hm h204
  have hkey : lookupStr (resolvedPath r.path) ((calendarHandler users fs r).2).files
      = some r.body := by
    rw [heq]
    exact lookupStr_setFile_same _ _ _
  refine ⟨hkey, ?_⟩
  intro a' b' h200
  rw [calendarHandler_get _ _ _ rfl] at h200 ⊢
  have hbody2 : lookupStr (resolvedPath r.path) ((calendarHandler users fs r).2).files
      = some ((handleGetCalendar ((calendarHandler users fs r).2)
          ⟨.get, r.path, a', b'⟩).1.body) :=
    handleGet_200_body ((calendarHandler users fs r).2) ⟨.get, r.path, a', b'⟩ h200
  rw [hkey] at hbody2
  exact (Option.some.inj hbody2).symm

/-- Witness for C5: overwriting `OLD` with `NEW` at `/u/a.ics`; the stored
document and a subsequent read are exactly `NEW`. -/
theorem c5_full_replacement_witness :
    lookupStr (resolvedPath "/u/a.ics")
        ((calendarHandler [("u", "p")] ⟨[("calendars/u/a.ics", "OLD")], ["calendars"]⟩
          ⟨.put, "/u/a.ics", some ("u", "p"), "NEW"⟩).2).files = some "NEW" ∧
    (calendarHandler [("u", "p")]
        ((calendarHandler [("u", "p")] ⟨[("calendars/u/a.ics", "OLD")], ["calendars"]⟩
          ⟨.put, "/u/a.ics", some ("u", "p"), "NEW"⟩).2)
        ⟨.get, "/u/a.ics", none, ""⟩).1.body = "NEW" := by
  have h := c5_full_replacement [("u", "p")] ⟨[("calendars/u/a.ics", "OLD")], ["calendars"]⟩
    ⟨.put, "/u/a.ics", some ("u", "p"), "NEW"⟩ "OLD" rfl (by decide) (by decide)
  exact ⟨h.1, h.2 none "" (by decide)⟩

/-! ### Claim C6 -/

/-- C6 counterexample: the file `calendars/v.ics` exists and is exactly what
the GET of the calendar path `/u/../v.ics` resolves to, yet the response is
400 `invalid URL path` (from the `..`-element check in `http.ServeFile`),
not 200 with the calendar media type — so an existing file is not always
served. -/
theorem c6_counterexample :
    lookupStr "calendars/v.ics"
        (FS.files ⟨[("calendars/v.ics", "SECRET")], ["calendars"]⟩) = some "SECRET" ∧
    resolvedPath "/u/../v.ics" = "calendars/v.ics" ∧
    stringsHasSuffix "/u/../v.ics" ".ics" = true ∧
    (calendarHandler [] ⟨[("calendars/v.ics", "SECRET")], ["calendars"]⟩
        ⟨.get, "/u/../v.ics", none, ""⟩).1 = httpError "invalid URL path" 400 := by
  decide

/-- C6 (amended): the GET response — status, headers, body, and filesystem —
is completely independent of the request's credentials (no authentication
check happens on the GET path), and, provided the path contains no `..`
element, an existing file is served with media type
`text/calendar; charset=utf-8` to any requester. -/
theorem c6_get_ignores_credentials (users : List (String × String)) (fs : FS) (p b : String)
    (a1 a2 : Option (String × String)) :
    calendarHandler users fs ⟨.get, p, a1, b⟩ = calendarHandler users fs ⟨.get, p, a2, b⟩ ∧
    (∀ content, stringsHasSuffix p ".ics" = true →
      lookupStr (resolvedPath p) fs.files = some content →
      containsDotDot p = false →
      calendarHandler users fs ⟨.get, p, a1, b⟩ =
        ({ status := 200, contentType := some "text/calendar; charset=utf-8",
           wwwAuthenticate := none, body := content }, fs)) := by
  constructor
  · rw [calendarHandler_get _ _ _ rfl, calendarHandler_get _ _ _ rfl]
    simp only [handleGetCalendar]
  · intro content hsuf hfile hdd
    rw [calendarHandler_get _ _ _ rfl]
    exact handleGet_serves fs _ content hsuf hfile hdd

/-- Witness for C6 (amended): the same GET with and without credentials at a
present file. -/
theorem c6_get_ignores_credentials_witness :
    calendarHandler [] ⟨[("calendars/u/v.ics", "C")], ["calendars"]⟩
        ⟨.get, "/u/v.ics", some ("x", "y"), ""⟩ =
      calendarHandler [] ⟨[("calendars/u/v.ics", "C")], ["calendars"]⟩
        ⟨.get, "/u/v.ics", none, ""⟩ ∧
    calendarHandler [] ⟨[("calendars/u/v.ics", "C")], ["calendars"]⟩
        ⟨.get, "/u/v.ics", some ("x", "y"), ""⟩ =
      ({ status := 200, contentType := some "text/calendar; charset=utf-8",
         wwwAuthenticate := none, body := "C" },
       ⟨[("calendars/u/v.ics", "C")], ["calendars"]⟩) := by
  have h := c6_get_ignores_credentials [] ⟨[("calendars/u/v.ics", "C")], ["calendars"]⟩
    "/u/v.ics" "" (some ("x", "y")) none
  exact ⟨h.1, h.2 "C" (by decide) (by decide) (by decide)⟩

/-! ### Claim C7 -/

/-- C7: on the PUT path, authentication runs before any path validation: a PUT
whose credentials fail receives 401 with the challenge header even when the
path is invalid, and a 400 Bad Request response can only arise for a request
whose credentials passed authentication. -/
theorem c7_auth_before_validation (users : List (String × String)) (fs : FS)
    (p b : String) (a : Option (String × String)) :
    (authSucceeds users a = false →
      calendarHandler users fs ⟨.put, p, a, b⟩ = (unauthorizedResponse, fs) ∧
      unauthorizedResponse.status = 401 ∧
      unauthorizedResponse.wwwAuthenticate = some "Basic realm=\"Restricted\"") ∧
    ((calendarHandler users fs ⟨.put, p, a, b⟩).1.status = 400 →
      authSucceeds users a = true) := by
  constructor
  · intro hfail
    refine ⟨?_, rfl, rfl⟩
    rw [calendarHandler_put _ _ _ rfl]
    exact authMiddleware_not_ok users fs _ hfail
  · intro h400
    by_cases ha : authSucceeds users a = true
    · exact ha
    · exfalso
      have hfalse : authSucceeds users a = false := by
        revert ha
        cases authSucceeds users a <;> simp
      have hmw := authMiddleware_not_ok users fs ⟨.put, p, a, b⟩ hfalse
      rw [calendarHandler_put _ _ _ rfl, hmw] at h400
      simp [unauthorizedResponse, httpError] at h400

/-- Witness for C7: a PUT with no credentials to a path that does not even end
in `.ics` still receives the 401 challenge, not 400. -/
theorem c7_auth_before_validation_witness :
    calendarHandler [("u", "p")] ⟨[], []⟩ ⟨.put, "/nonsense", none, "B"⟩ =
      (unauthorizedResponse, ⟨[], []⟩) ∧
    unauthorizedResponse.status = 401 ∧
    unauthorizedResponse.wwwAuthenticate = some "Basic realm=\"Restricted\"" :=
  (c7_auth_before_validation [("u", "p")] ⟨[], []⟩ "/nonsense" "B" none).1 (by decide)

/-! ### Claim C8 -/

/-- C8: a request path ending in `.ics` with fewer than two segments after
trimming separators fails path resolution: an authenticated PUT to it receives
400 Bad Request with the filesystem unchanged; its resolved storage location
differs from the location of every calendar document owned by any user (owner
a normal separator-free segment, name without `..` elements); and a GET to it
can only ever serve the document stored at that resolved location. -/
theorem c8_short_path (users : List (String × String)) (fs : FS) (p b : String)
    (a : Option (String × String))
    (hroot : p.data.head? = some '/')
    (hics : stringsHasSuffix p ".ics" = true)
    (hlen : ((trimSlashes p.data).splitOn '/').length < 2) :
    (authSucceeds users a = true →
      calendarHandler users fs ⟨.put, p, a, b⟩ =
        (httpError "Invalid path format. Expected /\x7busername\x7d/\x7bcalendar\x7d.ics" 400,
         fs)) ∧
    (∀ U N : String, normalSeg U.data → '/' ∉ U.data →
      (∀ s ∈ N.data.splitOn '/', s ≠ ['.', '.']) →
      resolvedPath p ≠ ownedLocation U N) ∧
    ((calendarHandler users fs ⟨.get, p, a, b⟩).1.status = 200 →
      lookupStr (resolvedPath p) fs.files =
        some ((calendarHandler users fs ⟨.get, p, a, b⟩).1.body)) := by
  refine ⟨?_, ?_, ?_⟩
  · intro ha
    obtain ⟨u, pw, hba, hl⟩ := (authSucceeds_true_iff users a).mp ha
    rw [calendarHandler_put _ _ _ rfl,
      authMiddleware_ok users handlePutCalendar fs _ u pw hba hl]
    exact handlePut_bad_format u fs _ hics hlen
  · intro U N hUn hUs hN heq
    have h2 := resolvedPath_short p hroot hics hlen
    have h3 := ownedLocation_segments U N hUn hUs hN
    rw [heq] at h2
    omega
  · intro h200
    rw [calendarHandler_get _ _ _ rfl] at h200 ⊢
    exact handleGet_200_body fs ⟨.get, p, a, b⟩ h200

/-- Witness for C8 at the one-segment path `/x.ics`. -/
theorem c8_short_path_witness :
    calendarHandler [("alice", "pw")] ⟨[], []⟩ ⟨.put, "/x.ics", some ("alice", "pw"), "D"⟩ =
      (httpError "Invalid path format. Expected /\x7busername\x7d/\x7bcalendar\x7d.ics" 400,
       ⟨[], []⟩) ∧
    resolvedPath "/x.ics" ≠ ownedLocation "alice" "work" := by
  have h := c8_short_path [("alice", "pw")] ⟨[], []⟩ "/x.ics" "D" (some ("alice", "pw"))
    (by decide) (by decide) (by decide)
  exact ⟨h.1 (by decide), h.2.1 "alice" "work" ⟨by decide, by decide, by decide⟩
    (by decide) (by decide)⟩

/-! ### Claim C9 -/

/-- C9 counterexample: a PUT to `/u/../w.ics` authenticated as `u` completes
with 204, but the subsequent GET of the same path answers 400 (the
`..`-element check in `http.ServeFile`), so the completed write is not
visible to that GET. -/
theorem c9_counterexample :
    (calendarHandler [("u", "pw")] ⟨[], []⟩
        ⟨.put, "/u/../w.ics", some ("u", "pw"), "D"⟩).1.status = 204 ∧
    (calendarHandler [("u", "pw")]
        (calendarHandler [("u", "pw")] ⟨[], []⟩
          ⟨.put, "/u/../w.ics", some ("u", "pw"), "D"⟩).2
        ⟨.get, "/u/../w.ics", none, ""⟩).1.status = 400 := by
  decide

/-- C9 (amended): filesystem effects are confined to the PUT handler — no GET,
no request with another method, and no PUT that fails authentication changes
any file or directory — and a write completed by a PUT is visible to every
subsequent GET of the same path provided the path contains no `..` element. -/
theorem c9_frame (users : List (String × String)) (fs : FS) (p b : String)
    (a : Option (String × String)) :
    (calendarHandler users fs ⟨.get, p, a, b⟩).2 = fs ∧
    (∀ name, (calendarHandler users fs ⟨.other name, p, a, b⟩).2 = fs) ∧
    (authSucceeds users a = false → (calendarHandler users fs ⟨.put, p, a, b⟩).2 = fs) ∧
    ((calendarHandler users fs ⟨.put, p, a, b⟩).1.status = 204 →
      containsDotDot p = false →
      ∀ a' b', (calendarHandler users (calendarHandler users fs ⟨.put, p, a, b⟩).2
          ⟨.get, p, a', b'⟩).1 =
        { status := 200, contentType := some "text/calendar; charset=utf-8",
          wwwAuthenticate := none, body := b }) := by
  refine ⟨?_, ?_, ?_, ?_⟩
  · rw [calendarHandler_get _ _ _ rfl]
    exact handleGet_fs fs _
  · intro name
    rfl
  · intro hfail
    rw [calendarHandler_put _ _ _ rfl, authMiddleware_not_ok users fs _ hfail]
  · intro h204 hdd a' b'
    obtain ⟨hsuf, heq⟩ := put_204_inv users fs ⟨.put, p, a, b⟩ rfl h204
    dsimp only at hsuf heq
    rw [heq, calendarHandler_get _ _ _ rfl]
    dsimp only
    rw [handleGet_serves _ _ b hsuf (lookupStr_setFile_same _ _ _) hdd]

/-- Witness for C9 (amended): concrete GET, DELETE, and unauthenticated PUT
leave the filesystem unchanged, and a completed PUT is visible to the next
GET. -/
theorem c9_frame_witness :
    (calendarHandler [("u", "p")] ⟨[], []⟩ ⟨.get, "/u/a.ics", none, "D"⟩).2 = ⟨[], []⟩ ∧
    (calendarHandler [("u", "p")] ⟨[], []⟩ ⟨.other "DELETE", "/u/a.ics", none, "D"⟩).2 =
      ⟨[], []⟩ ∧
    (calendarHandler [("u", "p")] ⟨[], []⟩ ⟨.put, "/u/a.ics", none, "D"⟩).2 = ⟨[], []⟩ ∧
    (calendarHandler [("u", "p")]
        (calendarHandler [("u", "p")] ⟨[], []⟩
          ⟨.put, "/u/a.ics", some ("u", "p"), "D"⟩).2
        ⟨.get, "/u/a.ics", none, ""⟩).1 =
      { status := 200, contentType := some "text/calendar; charset=utf-8",
        wwwAuthenticate := none, body := "D" } := by
  have h1 := c9_frame [("u", "p")] ⟨[], []⟩ "/u/a.ics" "D" none
  have h2 := c9_frame [("u", "p")] ⟨[], []⟩ "/u/a.ics" "D" (some ("u", "p"))
  exact ⟨h1.1, h1.2.1 "DELETE", h1.2.2.1 (by decide),
    h2.2.2.2 (by decide) (by decide) none ""⟩

/-! ### Claim C10 -/

/-- C10: the ownership check of an authenticated PUT compares the
authenticated username for exact, case-sensitive string equality against the
first `/`-separated segment of the raw request path after trimming leading and
trailing slashes and before any lexical normalization; any difference yields
403 Forbidden with the filesystem unchanged. -/
theorem c10_raw_owner_check (users : List (String × String)) (fs : FS) (p b u pw : String)
    (hl : lookupStr u users = some pw)
    (hsuf : stringsHasSuffix p ".ics" = true)
    (hlen : ¬ ((trimSlashes p.data).splitOn '/').length < 2)
    (hne : ¬ u.data = ((trimSlashes p.data).splitOn '/').headI) :
    calendarHandler users fs ⟨.put, p, some (u, pw), b⟩ =
      (httpError "Forbidden. You can only edit your own calendars." 403, fs) :=
  put_forbidden_route users fs ⟨.put, p, some (u, pw), b⟩ u pw rfl hl rfl hsuf hlen hne

/-- Witness for C10: user `alice` writing `/Alice/x.ics` — a letter-case
difference only — receives 403. -/
theorem c10_raw_owner_check_witness :
    calendarHandler [("alice", "pw")] ⟨[], []⟩
        ⟨.put, "/Alice/x.ics", some ("alice", "pw"), "D"⟩ =
      (httpError "Forbidden. You can only edit your own calendars." 403, ⟨[], []⟩) :=
  c10_raw_owner_check [("alice", "pw")] ⟨[], []⟩ "/Alice/x.ics" "D" "alice" "pw"
    (by decide) (by decide) (by decide) (by decide)
